import Mathlib

/-!
Verification of the Peloton query-optimizer driver (src/optimizer/optimizer.cpp).

The driver file is embedded directly.  The collaborating classes it calls
(Memo, Group, GroupExpression, the binding iterator, the rule and operator
contracts) are not part of the provided sources; those definitions are
modelled from the specification and carry a doc comment saying so.
-/

namespace PelotonOpt

/-- GroupID is an opaque stable identifier for a group within one memo. -/
abbrev GroupID := Nat

/-- Modelled from the spec: an atomic physical property. -/
abbrev Property := Nat

/-- Modelled from the spec: a PropertySet is an unordered collection of atomic
properties. -/
abbrev PropertySet := List Property

/-- Modelled from the spec: subsumption of property sets; `a.subsumes b` is the
source comparison `a >= b` used at optimizer.cpp line 200. -/
def PropertySet.subsumes (a b : PropertySet) : Bool :=
  b.all (fun p => a.contains p)

/-- Modelled from the spec: the operator contract of section 6.  An operator is
a tagged value with a kind, kind-specific parameters, a logical/physical tag,
statically advertised required input properties, and an opaque base cost used
by the cost model. -/
structure Operator where
  kind : Nat
  params : List Nat
  physical : Bool
  requiredInputProps : List PropertySet
  baseCost : Nat
deriving DecidableEq

/-- Modelled from the spec: per-expression optimization metadata keyed by the
PropertySet required of the output (section 3). -/
structure ExprMeta where
  outputProps : PropertySet
  inputProps : List PropertySet
  cost : Nat
  stats : Nat
deriving DecidableEq

/-- Association-list lookup by decidable equality, used for every keyed map in
the memo model. -/
def alookup {α β : Type} [DecidableEq α] (k : α) : List (α × β) → Option β
  | [] => none
  | (a, b) :: rest => if a = k then some b else alookup k rest

/-- Association-list update, used by the memo model. -/
def updateAssoc {α β : Type} [DecidableEq α] (k : α) (v : β) : List (α × β) → List (α × β)
  | [] => [(k, v)]
  | (a, b) :: rest => if a = k then (k, v) :: rest else (a, b) :: updateAssoc k v rest

/-- Modelled from the spec: a group-expression is one operator whose children
are group references, plus the recorded optimization metadata. -/
structure GroupExpression where
  op : Operator
  childGroups : List GroupID
  groupId : GroupID
  costMeta : List (PropertySet × ExprMeta)
deriving DecidableEq

/-- Modelled from the spec: GroupExpression cost lookup keyed by PropertySet. -/
def GroupExpression.getCost (ge : GroupExpression) (props : PropertySet) : Nat :=
  match alookup props ge.costMeta with
  | some md => md.cost
  | none => 0

/-- Modelled from the spec: GroupExpression statistics lookup keyed by
PropertySet. -/
def GroupExpression.getStats (ge : GroupExpression) (props : PropertySet) : Nat :=
  match alookup props ge.costMeta with
  | some md => md.stats
  | none => 0

/-- Modelled from the spec: DeriveStatsAndCost records the derived output
properties, the demanded input properties, and a cost computed from child
costs; the concrete cost formula is out of scope for the search framework, so
a monotone instance (base cost plus child costs) is used. -/
def GroupExpression.deriveStatsAndCost (ge : GroupExpression) (outProps : PropertySet)
    (inProps : List PropertySet) (childStats childCosts : List Nat) : GroupExpression :=
  { ge with costMeta := (outProps,
      { outputProps := outProps, inputProps := inProps,
        cost := ge.op.baseCost + childCosts.sum,
        stats := 1 + childStats.sum }) :: ge.costMeta }

/-- Modelled from the spec: a group is an equivalence class of
group-expressions with exploration/implementation flags and the per-required
PropertySet best-expression bindings. -/
structure Group where
  id : GroupID
  expressions : List GroupExpression
  explored : Bool
  implemented : Bool
  best : List (PropertySet × (GroupExpression × Nat))
deriving DecidableEq

/-- Modelled from the spec: fetch the best expression of a group for a
required property set; absent entries yield none (a null pointer in the
source). -/
def Group.getBestExpression (g : Group) (req : PropertySet) : Option GroupExpression :=
  (alookup req g.best).map (fun pr => pr.1)

/-- Modelled from the spec, section 4.7(c): update the best binding for the
required properties only when the new total cost is strictly lower than the
incumbent (an absent incumbent is always replaced). -/
def Group.setExpressionCost (g : Group) (ge : GroupExpression) (cost : Nat)
    (req : PropertySet) : Group :=
  match alookup req g.best with
  | none => { g with best := (req, (ge, cost)) :: g.best }
  | some pr =>
    if cost < pr.2 then { g with best := (req, (ge, cost)) :: g.best } else g

/-- Modelled from the spec: the memo is the collection of groups plus the
canonical deduplication index mapping `(operator, child group ids)` to the
owning group. -/
structure Memo where
  groups : List (GroupID × Group)
  index : List ((Operator × List GroupID) × GroupID)
  nextId : GroupID
deriving DecidableEq

/-- Modelled from the spec: group lookup by id. -/
def Memo.getGroup (m : Memo) (id : GroupID) : Group :=
  (alookup id m.groups).getD
    { id := id, expressions := [], explored := false, implemented := false, best := [] }

/-- Modelled from the spec: replace a group in the memo. -/
def Memo.updateGroup (m : Memo) (id : GroupID) (g : Group) : Memo :=
  { m with groups := updateAssoc id g m.groups }

/-- Modelled from the spec, section 4.1: memo insertion.  The canonical form of
the expression is looked up; if present the existing group is returned and
is_new is false; if absent the expression is inserted into the target group
when one is given and into a fresh group otherwise.  Group merging is not
implemented, matching the note in section 9 that the source omits it. -/
def Memo.insertExpression (m : Memo) (ge : GroupExpression) (target : Option GroupID) :
    GroupExpression × Bool × Memo :=
  match alookup (ge.op, ge.childGroups) m.index with
  | some gid => ({ ge with groupId := gid }, false, m)
  | none =>
    match target with
    | none =>
      let gid := m.nextId
      let geNew := { ge with groupId := gid }
      (geNew, true,
        { groups := (gid, { id := gid, expressions := [geNew], explored := false,
                            implemented := false, best := [] }) :: m.groups,
          index := ((ge.op, ge.childGroups), gid) :: m.index,
          nextId := m.nextId + 1 })
    | some t =>
      let geNew := { ge with groupId := t }
      let g := m.getGroup t
      let m1 := m.updateGroup t { g with expressions := g.expressions ++ [geNew] }
      (geNew, true, { m1 with index := ((ge.op, ge.childGroups), t) :: m1.index })

/-- An operator tree: either an operator node with child trees, or the binding
placeholder that carries a GroupID (Modelled from the spec, section 4.3). -/
inductive OpExpr where
  | node (op : Operator) (children : List OpExpr)
  | leafGroup (gid : GroupID)

/-- The child list of an operator tree node. -/
def OpExpr.childrenOf : OpExpr → List OpExpr
  | .node _ cs => cs
  | .leafGroup _ => []

/-- Modelled from the spec: a rule pattern tree, either a wildcard leaf that
matches any group or an operator-kind node with child patterns. -/
inductive Pattern where
  | leaf
  | node (kind : Nat) (children : List Pattern)

/-- Modelled from the spec: the rule contract of section 6, a category tag,
a pattern, a guard and a transformation. -/
structure Rule where
  physicalCategory : Bool
  pattern : Pattern
  check : OpExpr → Bool
  transform : OpExpr → List OpExpr

/-- The optimizer state of the source file: the two rule lists built in the
constructor, plus the two inbound interfaces ConvertQueryToOpExpression and
GetQueryTreeRequiredProperties (Modelled from the spec, section 6, since the
converter sources are not provided). -/
structure Optimizer where
  logicalTransformationRules : List Rule
  physicalImplementationRules : List Rule
  convert : Nat → OpExpr
  getProps : Nat → PropertySet

/-- Result markers of the embedding: fuel exhaustion, a failed PL_ASSERT, the
null-pointer dereference crash, and an out-of-bounds vector access crash. -/
inductive OptError where
  | fuelOut
  | assertFailed
  | nullDeref
  | outOfBounds
deriving DecidableEq

/-- Modelled from the spec, section 4.3: Cartesian product of the bindings of
child patterns against child groups; the recursive group binder is passed as
a parameter. -/
def bindChildrenWith (rc : Memo → Pattern → GroupID → List OpExpr) (m : Memo) :
    List Pattern → List GroupID → List (List OpExpr)
  | [], _ => [[]]
  | _ :: _, [] => [[]]
  | p :: ps, g :: gs =>
    (rc m p g).flatMap (fun b => (bindChildrenWith rc m ps gs).map (fun bs => b :: bs))

/-- Modelled from the spec, section 4.3: bindings of a Match pattern at one
group-expression; fails unless the operator kind and the arities align. -/
def bindAtExprWith (rc : Memo → Pattern → GroupID → List OpExpr) (m : Memo)
    (k : Nat) (subs : List Pattern) (e : GroupExpression) : List OpExpr :=
  if e.op.kind = k ∧ subs.length = e.childGroups.length then
    (bindChildrenWith rc m subs e.childGroups).map (fun cs => OpExpr.node e.op cs)
  else []

/-- Modelled from the spec, section 4.3: bindings of a pattern against a group,
enumerating every expression of the group; a Leaf yields the placeholder
carrying the GroupID.  Fuel bounds the pattern depth. -/
def bindGroupF : Nat → Memo → Pattern → GroupID → List OpExpr
  | 0, _, _, _ => []
  | _ + 1, _, .leaf, gid => [OpExpr.leafGroup gid]
  | f + 1, m, .node k subs, gid =>
    ((m.getGroup gid).expressions).flatMap (fun e => bindAtExprWith (bindGroupF f) m k subs e)

/-- Modelled from the spec: the ItemBindingIterator rooted at one given
group-expression, as constructed in TransformExpression. -/
def bindExprTop (f : Nat) (m : Memo) (ge : GroupExpression) : Pattern → List OpExpr
  | .leaf => [OpExpr.leafGroup ge.groupId]
  | .node k subs => bindAtExprWith (bindGroupF f) m k subs ge

/-- Loop of MemoTransformedChildren: records each child in order, threading the
memo; the recursive single-expression recorder is passed as a parameter. -/
def memoChildrenWith (rc : Memo → OpExpr → GroupID × Memo) :
    Memo → List OpExpr → List GroupID × Memo
  | m, [] => ([], m)
  | m, c :: cs =>
    let r := rc m c
    let rest := memoChildrenWith rc r.2 cs
    (r.1 :: rest.1, rest.2)

/-- MemoTransformedExpression (optimizer.cpp lines 337-344): make a
group-expression for the tree and insert it with no target group; a binding
placeholder resolves directly to the GroupID it carries (Modelled from the
spec, sections 4.2 and 4.3).  Fuel bounds the tree depth. -/
def memoTransformedExpression : Nat → Memo → OpExpr → GroupID × Memo
  | 0, m, _ => (0, m)
  | _ + 1, m, .leafGroup gid => (gid, m)
  | f + 1, m, .node o cs =>
    let r := memoChildrenWith (memoTransformedExpression f) m cs
    let ins := r.2.insertExpression
      { op := o, childGroups := r.1, groupId := 0, costMeta := [] } none
    (ins.1.groupId, ins.2.2)

/-- MemoTransformedChildren (optimizer.cpp lines 327-335). -/
def memoTransformedChildren (f : Nat) : Memo → List OpExpr → List GroupID × Memo :=
  memoChildrenWith (memoTransformedExpression f)

/-- RecordTransformedExpression (optimizer.cpp lines 346-357): memoize the
children of the tree, then insert the resulting group-expression with the
given target group (none models UNDEFINED_GROUP).  A bare placeholder adds no
expression and reports not-new. -/
def recordTransformedExpression (f : Nat) (m : Memo) (p : OpExpr) (target : Option GroupID) :
    GroupExpression × Bool × Memo :=
  match p with
  | .leafGroup gid =>
    ({ op := { kind := 0, params := [], physical := false, requiredInputProps := [],
               baseCost := 0 },
       childGroups := [], groupId := gid, costMeta := [] }, false, m)
  | .node o cs =>
    let r := memoTransformedChildren f m cs
    r.2.insertExpression { op := o, childGroups := r.1, groupId := 0, costMeta := [] } target

/-- Inner loop of TransformExpression (optimizer.cpp lines 302-313): record
each transformed plan into the memo with the source group as target and keep
exactly the expressions whose insert reported new. -/
def integratePlansLoop (f : Nat) (t : GroupID) : Memo → List OpExpr → List GroupExpression × Memo
  | m, [] => ([], m)
  | m, p :: ps =>
    let r := recordTransformedExpression f m p (some t)
    let rest := integratePlansLoop f t r.2.2 ps
    ((if r.2.1 then [r.1] else []) ++ rest.1, rest.2)

/-- Outer loop of TransformExpression (optimizer.cpp lines 288-315): for each
binding, when the rule guard passes, apply the transformation and integrate
the produced plans. -/
def transformBindingsLoop (f : Nat) (rl : Rule) (t : GroupID) :
    Memo → List OpExpr → List GroupExpression × Memo
  | m, [] => ([], m)
  | m, b :: bs =>
    let stp := if rl.check b then integratePlansLoop f t m (rl.transform b) else ([], m)
    let rest := transformBindingsLoop f rl t stp.2 bs
    (stp.1 ++ rest.1, rest.2)

/-- TransformExpression (optimizer.cpp lines 282-317). -/
def transformExpression (f : Nat) (m : Memo) (ge : GroupExpression) (rl : Rule) :
    List GroupExpression × Memo :=
  transformBindingsLoop f rl ge.groupId m (bindExprTop f m ge rl.pattern)

/-- The mutually recursive exploration and implementation entry points of the
driver, merged into one fuel-indexed step function. -/
inductive DriverCall where
  | exploreG (id : GroupID)
  | exploreE (ge : GroupExpression)
  | implementG (id : GroupID)
  | implementE (ge : GroupExpression)

/-- The explore/implement recursion of optimizer.cpp lines 218-278.
exploreG is ExploreGroup, exploreE is ExploreExpression (with its PL_ASSERT
that the operator is logical), implementG is ImplementGroup (which invokes
ExploreExpression on the physical expressions of the group), implementE is
ImplementExpression. -/
def driverStep (opt : Optimizer) : Nat → Memo → DriverCall → Except OptError Memo
  | 0, _, _ => .error .fuelOut
  | f + 1, m, .exploreG id => do
    let m1 ← (m.getGroup id).expressions.foldlM
      (fun mm e => driverStep opt f mm (.exploreE e)) m
    let g := m1.getGroup id
    .ok (m1.updateGroup id { g with explored := true })
  | f + 1, m, .exploreE ge =>
    if ge.op.physical then .error .assertFailed
    else do
      let m1 ← opt.logicalTransformationRules.foldlM (fun mm rl =>
        let tr := transformExpression f mm ge rl
        tr.1.foldlM (fun mm2 c => driverStep opt f mm2 (.exploreE c)) tr.2) m
      ge.childGroups.foldlM (fun mm cid =>
        if (mm.getGroup cid).explored then .ok mm
        else driverStep opt f mm (.exploreG cid)) m1
  | f + 1, m, .implementG id => do
    let m1 ← (m.getGroup id).expressions.foldlM (fun mm e =>
      if e.op.physical then driverStep opt f mm (.exploreE e) else .ok mm) m
    let g := m1.getGroup id
    .ok (m1.updateGroup id { g with implemented := true })
  | f + 1, m, .implementE ge => do
    let m1 := opt.physicalImplementationRules.foldl
      (fun mm rl => (transformExpression f mm ge rl).2) m
    ge.childGroups.foldlM (fun mm cid =>
      if (mm.getGroup cid).implemented then .ok mm
      else driverStep opt f mm (.implementG cid)) m1

/-- ExploreGroup (optimizer.cpp lines 218-225). -/
def exploreGroup (f : Nat) (opt : Optimizer) (m : Memo) (id : GroupID) :
    Except OptError Memo :=
  driverStep opt f m (.exploreG id)

/-- ExploreExpression (optimizer.cpp lines 227-253). -/
def exploreExpression (f : Nat) (opt : Optimizer) (m : Memo) (ge : GroupExpression) :
    Except OptError Memo :=
  driverStep opt f m (.exploreE ge)

/-- ImplementGroup (optimizer.cpp lines 255-262). -/
def implementGroup (f : Nat) (opt : Optimizer) (m : Memo) (id : GroupID) :
    Except OptError Memo :=
  driverStep opt f m (.implementG id)

/-- ImplementExpression (optimizer.cpp lines 264-278); never called by the
driver. -/
def implementExpression (f : Nat) (opt : Optimizer) (m : Memo) (ge : GroupExpression) :
    Except OptError Memo :=
  driverStep opt f m (.implementE ge)

/-- DeriveChildProperties (optimizer.cpp lines 211-216): a stub that returns
the empty list of output/input property pairs for every expression and
requirement. -/
def deriveChildProperties (_ge : GroupExpression) (_req : PropertySet) :
    List (PropertySet × List PropertySet) := []

/-- Lines 199-207 of OptimizeExpression: when the derived output properties
subsume the requirements, offer the expression with its cost as a candidate
best for its group. -/
def recordBestIfSubsumes (m : Memo) (ge : GroupExpression) (outProps req : PropertySet) :
    Memo :=
  if PropertySet.subsumes outProps req then
    m.updateGroup ge.groupId
      ((m.getGroup ge.groupId).setExpressionCost ge (ge.getCost outProps) req)
  else m

/-- The mutually recursive OptimizeGroup and OptimizeExpression calls merged
into one fuel-indexed step function. -/
inductive OptCall where
  | group (id : GroupID) (req : PropertySet)
  | expr (ge : GroupExpression) (req : PropertySet)

/-- OptimizeGroup and OptimizeExpression (optimizer.cpp lines 136-209).
OptimizeGroup returns early when a best binding already exists, then costs
each physical expression.  OptimizeExpression asserts the expression is
physical, then for each pair from DeriveChildProperties optimizes the
children (an out-of-bounds access of the input property list and a null best
expression are crashes), derives stats and cost, and records a candidate
best. -/
def optimizeStep : Nat → Memo → OptCall → Except OptError Memo
  | 0, _, _ => .error .fuelOut
  | f + 1, m, .group id req =>
    if ((m.getGroup id).getBestExpression req).isSome then .ok m
    else
      (m.getGroup id).expressions.foldlM
        (fun mm e => if e.op.physical then optimizeStep f mm (.expr e req) else .ok mm) m
  | f + 1, m, .expr ge req =>
    if ge.op.physical then
      ((deriveChildProperties ge req).foldlM
        (fun (acc : Memo × GroupExpression) (pr : PropertySet × List PropertySet) => do
          let st ← acc.2.childGroups.enum.foldlM
            (fun (st : Memo × List Nat × List Nat) (ic : Nat × GroupID) => do
              match pr.2.get? ic.1 with
              | none => throw OptError.outOfBounds
              | some ip => do
                let m1 ← optimizeStep f st.1 (.group ic.2 ip)
                match (m1.getGroup ic.2).getBestExpression ip with
                | none => throw OptError.assertFailed
                | some be =>
                  .ok (m1, st.2.1 ++ [be.getStats ip], st.2.2 ++ [be.getCost ip]))
            (acc.1, [], [])
          let ge2 := acc.2.deriveStatsAndCost pr.1 pr.2 st.2.1 st.2.2
          .ok (recordBestIfSubsumes st.1 ge2 pr.1 req, ge2))
        (m, ge)).map Prod.fst
    else .error .assertFailed

/-- OptimizeGroup (optimizer.cpp lines 136-148). -/
def optimizeGroup (f : Nat) (m : Memo) (id : GroupID) (req : PropertySet) :
    Except OptError Memo :=
  optimizeStep f m (.group id req)

/-- OptimizeExpression (optimizer.cpp lines 150-209). -/
def optimizeExpression (f : Nat) (m : Memo) (ge : GroupExpression) (req : PropertySet) :
    Except OptError Memo :=
  optimizeStep f m (.expr ge req)

/-- Lines 117-122 of ChooseBestPlan: the input property requirements for the
children are the statically advertised RequiredInputProperties of the winning
operator, padded with empty property sets when the operator advertises
none. -/
def chooseBestChildProps (ge : GroupExpression) : List PropertySet :=
  if ge.op.requiredInputProps.isEmpty then List.replicate ge.childGroups.length []
  else ge.op.requiredInputProps

/-- The recursive extraction calls merged into one fuel-indexed function. -/
inductive ChooseCall where
  | one (id : GroupID) (req : PropertySet)
  | many (pairs : List (GroupID × PropertySet))

/-- ChooseBestPlan (optimizer.cpp lines 109-134).  The best expression for the
requirements is fetched; when absent the source dereferences the null pointer,
modelled as the nullDeref crash.  Children are extracted left to right under
the static child requirements; accessing a requirement past the end of the
advertised list is the outOfBounds crash. -/
def chooseStep : Nat → Memo → ChooseCall → Except OptError (List OpExpr)
  | 0, _, _ => .error .fuelOut
  | f + 1, m, .one id req =>
    match (m.getGroup id).getBestExpression req with
    | none => .error .nullDeref
    | some ge => do
      let ts ← chooseStep f m (.many (ge.childGroups.zip (chooseBestChildProps ge)))
      if ge.childGroups.length ≤ (chooseBestChildProps ge).length then
        .ok [OpExpr.node ge.op ts]
      else .error .outOfBounds
  | _ + 1, _, .many [] => .ok []
  | f + 1, m, .many (pr :: rest) => do
    let t ← chooseStep f m (.one pr.1 pr.2)
    let ts ← chooseStep f m (.many rest)
    .ok (t ++ ts)

/-- ChooseBestPlan at one group, returning the extracted operator tree. -/
def chooseBestPlan (f : Nat) (m : Memo) (id : GroupID) (req : PropertySet) :
    Except OptError OpExpr :=
  (chooseStep f m (.one id req)).map (fun ts => ts.headD (OpExpr.leafGroup 0))

/-- InsertQueryTree (optimizer.cpp lines 89-96): convert the statement and
record it with no target group; the source asserts the insert reported new. -/
def insertQueryTree (opt : Optimizer) (f : Nat) (m : Memo) (stmt : Nat) :
    Except OptError (GroupExpression × Memo) :=
  let r := recordTransformedExpression f m (opt.convert stmt) none
  if r.2.1 then .ok (r.1, r.2.2) else .error .assertFailed

/-- BuildPelotonPlanTree (optimizer.cpp lines 53-87): return the null plan on
an empty statement list; otherwise ingest statement 0, explore, implement,
optimize and extract from its root group. -/
def buildPelotonPlanTree (opt : Optimizer) (f : Nat) (m : Memo) :
    List Nat → Except OptError (Option OpExpr × Memo)
  | [] => .ok (none, m)
  | stmt :: _ => do
    let r ← insertQueryTree opt f m stmt
    let rootId := r.1.groupId
    let props := opt.getProps stmt
    let m1 ← exploreGroup f opt r.2 rootId
    let m2 ← implementGroup f opt m1 rootId
    let m3 ← optimizeExpression f m2 r.1 props
    let plan ← chooseBestPlan f m3 rootId props
    .ok (some plan, m3)

/-! Concrete scenarios used by witnesses, counterexamples and code-bug
evaluations. -/

/-- A logical operator standing for a LogicalGet. -/
def opGet : Operator :=
  { kind := 0, params := [], physical := false, requiredInputProps := [], baseCost := 1 }

/-- A physical operator standing for a PhysicalScan. -/
def opScan : Operator :=
  { kind := 100, params := [], physical := true, requiredInputProps := [], baseCost := 1 }

/-- A logical group-expression in group 0. -/
def geLog : GroupExpression :=
  { op := opGet, childGroups := [], groupId := 0, costMeta := [] }

/-- A physical group-expression in group 0. -/
def gePhys : GroupExpression :=
  { op := opScan, childGroups := [], groupId := 0, costMeta := [] }

/-- A memo holding one group with the single logical expression. -/
def m0 : Memo :=
  { groups := [(0, { id := 0, expressions := [geLog], explored := false,
                     implemented := false, best := [] })],
    index := [((opGet, []), 0)], nextId := 1 }

/-- The memo m0 after ImplementGroup: flag set, expressions untouched. -/
def m0Implemented : Memo :=
  { groups := [(0, { id := 0, expressions := [geLog], explored := false,
                     implemented := true, best := [] })],
    index := [((opGet, []), 0)], nextId := 1 }

/-- A memo holding one group with a single physical expression. -/
def m0p : Memo :=
  { groups := [(0, { id := 0, expressions := [gePhys], explored := false,
                     implemented := false, best := [] })],
    index := [((opScan, []), 0)], nextId := 1 }

/-- An implementation rule turning the logical Get into the physical Scan. -/
def ruleGetToScan : Rule :=
  { physicalCategory := true, pattern := Pattern.leaf,
    check := fun _ => true, transform := fun _ => [OpExpr.node opScan []] }

/-- An optimizer whose only rule is the Get-to-Scan implementation rule. -/
def opt0 : Optimizer :=
  { logicalTransformationRules := [], physicalImplementationRules := [ruleGetToScan],
    convert := fun _ => OpExpr.node opGet [], getProps := fun _ => [] }

/-- True when the memo result holds a physical expression in the group. -/
def resultHasPhysical (r : Except OptError Memo) (id : GroupID) : Bool :=
  match r with
  | .ok m => (m.getGroup id).expressions.any (fun e => e.op.physical)
  | .error _ => false

/-- A physical join-like operator with one child group and no advertised
input properties. -/
def opJoin : Operator :=
  { kind := 50, params := [], physical := true, requiredInputProps := [], baseCost := 2 }

/-- A winning expression in group 0 with child group 1. -/
def geJoin : GroupExpression :=
  { op := opJoin, childGroups := [1], groupId := 0, costMeta := [] }

/-- A memo whose root group has a best entry but whose child group 1 has no
best entry for any requirement. -/
def m3b : Memo :=
  { groups := [(0, { id := 0, expressions := [geJoin], explored := true,
                     implemented := true, best := [([], (geJoin, 7))] }),
               (1, { id := 1, expressions := [], explored := true,
                     implemented := true, best := [] })],
    index := [], nextId := 2 }

/-- A physical leaf operator, winner of child group 1 under property set 1. -/
def opA4 : Operator :=
  { kind := 10, params := [], physical := true, requiredInputProps := [], baseCost := 1 }

/-- A physical leaf operator, winner of child group 1 under the empty
property set. -/
def opB4 : Operator :=
  { kind := 20, params := [], physical := true, requiredInputProps := [], baseCost := 1 }

/-- A physical parent operator statically advertising required input property
set containing property 1 for its single child. -/
def opE4 : Operator :=
  { kind := 30, params := [], physical := true, requiredInputProps := [[1]], baseCost := 1 }

/-- Winner of group 1 under property set containing 1. -/
def geA4 : GroupExpression :=
  { op := opA4, childGroups := [], groupId := 1, costMeta := [] }

/-- Winner of group 1 under the empty property set. -/
def geB4 : GroupExpression :=
  { op := opB4, childGroups := [], groupId := 1, costMeta := [] }

/-- The winning root expression: its recorded optimization metadata for the
empty requirement demands the empty property set from its child, while its
operator statically advertises the property set containing 1. -/
def geE4 : GroupExpression :=
  { op := opE4, childGroups := [1], groupId := 0,
    costMeta := [([], { outputProps := [], inputProps := [[]], cost := 5, stats := 1 })] }

/-- Root group for the extraction scenario. -/
def g0c4 : Group :=
  { id := 0, expressions := [geE4], explored := true, implemented := true,
    best := [([], (geE4, 5))] }

/-- Child group for the extraction scenario, with distinct winners under the
two property sets. -/
def g1c4 : Group :=
  { id := 1, expressions := [geA4, geB4], explored := true, implemented := true,
    best := [([1], (geA4, 3)), ([], (geB4, 2))] }

/-- The extraction-scenario memo. -/
def mC4 : Memo := { groups := [(0, g0c4), (1, g1c4)], index := [], nextId := 2 }

/-- A physical expression in group 5 with recorded metadata of cost 3 for
output property set containing 2. -/
def geW : GroupExpression :=
  { op := { kind := 60, params := [], physical := true, requiredInputProps := [],
            baseCost := 1 },
    childGroups := [], groupId := 5,
    costMeta := [([2], { outputProps := [2], inputProps := [], cost := 3, stats := 1 })] }

/-- A memo whose group 5 already has an incumbent best of cost 10 for the
requirement containing property 2. -/
def mW : Memo :=
  { groups := [(5, { id := 5, expressions := [geW], explored := true, implemented := true,
                     best := [([2], ({ op := { kind := 61, params := [], physical := true,
                                               requiredInputProps := [], baseCost := 1 },
                                       childGroups := [], groupId := 5, costMeta := [] },
                                     10))] })],
    index := [], nextId := 6 }

/-! Theorems settling the claims. -/

/-- C9: when the input statement list is empty, BuildPelotonPlanTree returns
the null plan marker immediately, with the memo untouched and no phase
(ingestion, exploration, implementation, optimization, extraction) run. -/
theorem buildPelotonPlanTree_empty_input (opt : Optimizer) (f : Nat) (m : Memo) :
    buildPelotonPlanTree opt f m [] = .ok (none, m) := rfl

/-- C10: for a non-empty statement list the driver looks only at statement 0;
the result is identical for any two lists sharing the same first statement,
so the remaining statements are ignored entirely. -/
theorem buildPelotonPlanTree_first_statement_only (opt : Optimizer) (f : Nat) (m : Memo)
    (s : Nat) (rest1 rest2 : List Nat) :
    buildPelotonPlanTree opt f m (s :: rest1) = buildPelotonPlanTree opt f m (s :: rest2) :=
  rfl

/-- C2: DeriveChildProperties returns the empty pair list for every expression
and requirement, and consequently OptimizeExpression on a physical expression
returns the memo unchanged: no best-cost entry is registered anywhere. -/
theorem deriveChildProperties_empty_and_optimize_noop (f : Nat) (m : Memo)
    (ge : GroupExpression) (req : PropertySet) :
    deriveChildProperties ge req = []
    ∧ (ge.op.physical = true → optimizeExpression (f + 1) m ge req = .ok m) := by
  refine ⟨rfl, fun h => ?_⟩
  simp [optimizeExpression, optimizeStep, h, deriveChildProperties, Except.map,
    pure, Except.pure]

/-- Witness for C2 at a concrete physical expression and memo. -/
theorem deriveChildProperties_empty_and_optimize_noop_witness :
    deriveChildProperties gePhys [] = [] ∧ optimizeExpression 3 m0p gePhys [] = .ok m0p :=
  ⟨(deriveChildProperties_empty_and_optimize_noop 2 m0p gePhys []).1,
   (deriveChildProperties_empty_and_optimize_noop 2 m0p gePhys []).2 rfl⟩

/-- C1: ImplementGroup applies no physical-implementation rule at all.  On a
memo whose group holds one logical expression and an optimizer with an
applicable implementation rule, ImplementGroup leaves the expressions of the
group unchanged (no physical expression appears) and merely sets the
implemented flag, while the never-called ImplementExpression on the same
input would have recorded a physical expression into the group. -/
theorem implementGroup_applies_no_rules :
    implementGroup 5 opt0 m0 0 = .ok m0Implemented
    ∧ (m0Implemented.getGroup 0).expressions.filter (fun e => e.op.physical) = []
    ∧ (m0Implemented.getGroup 0).expressions = (m0.getGroup 0).expressions
    ∧ (m0Implemented.getGroup 0).implemented = true
    ∧ resultHasPhysical (implementExpression 5 opt0 m0 geLog) 0 = true :=
  ⟨rfl, rfl, rfl, rfl, rfl⟩

/-- C7: exploration is not restricted to logical expressions.  ImplementGroup
invokes ExploreExpression precisely on the physical expressions of the group,
so on a group holding a physical expression the is-logical assertion inside
ExploreExpression fails. -/
theorem implementGroup_asserts_on_physical :
    gePhys.op.physical = true
    ∧ exploreExpression 4 opt0 m0p gePhys = .error .assertFailed
    ∧ implementGroup 5 opt0 m0p 0 = .error .assertFailed :=
  ⟨rfl, rfl, rfl⟩

/-- C3: when no best expression exists for the requirements, ChooseBestPlan
dereferences the null result of GetBestExpression instead of failing with a
structured NoPlan error; the crash occurs at the root group and equally at a
recursively extracted child group. -/
theorem chooseBestPlan_crashes_without_best :
    (m0p.getGroup 0).getBestExpression [] = none
    ∧ chooseBestPlan 5 m0p 0 [] = .error .nullDeref
    ∧ (m3b.getGroup 1).getBestExpression [] = none
    ∧ chooseBestPlan 5 m3b 0 [] = .error .nullDeref :=
  ⟨rfl, rfl, rfl, rfl⟩

/-- Lookup after an association-list update. -/
theorem alookup_updateAssoc {α β : Type} [DecidableEq α] (k kq : α) (v : β)
    (l : List (α × β)) :
    alookup kq (updateAssoc k v l) = if kq = k then some v else alookup kq l := by
  induction l with
  | nil =>
    by_cases h : kq = k
    · subst h; simp [updateAssoc, alookup]
    · have h2 : ¬ k = kq := fun hh => h hh.symm
      simp [updateAssoc, alookup, h, h2]
  | cons ab rest ih =>
    obtain ⟨a, b⟩ := ab
    by_cases hak : a = k
    · subst hak
      by_cases h : kq = a
      · subst h; simp [updateAssoc, alookup]
      · have h2 : ¬ a = kq := fun hh => h hh.symm
        simp [updateAssoc, alookup, h, h2]
    · by_cases haq : a = kq
      · subst haq
        have h2 : ¬ a = k := hak
        simp [updateAssoc, alookup, hak, h2]
      · simp [updateAssoc, alookup, hak, haq, ih]

/-- Group lookup after a group update in the memo. -/
theorem getGroup_updateGroup (m : Memo) (id : GroupID) (g : Group) (idq : GroupID) :
    (m.updateGroup id g).getGroup idq = if idq = id then g else m.getGroup idq := by
  simp only [Memo.updateGroup, Memo.getGroup, alookup_updateAssoc]
  by_cases h : idq = id <;> simp [h]

/-- Unfolding of setExpressionCost when no incumbent exists. -/
theorem setExpressionCost_of_none (g : Group) (ge : GroupExpression) (cost : Nat)
    (req : PropertySet) (h : alookup req g.best = none) :
    g.setExpressionCost ge cost req = { g with best := (req, (ge, cost)) :: g.best } := by
  unfold Group.setExpressionCost
  rw [h]

/-- Unfolding of setExpressionCost against an incumbent. -/
theorem setExpressionCost_of_some (g : Group) (ge : GroupExpression) (cost : Nat)
    (req : PropertySet) (pr : GroupExpression × Nat) (h : alookup req g.best = some pr) :
    g.setExpressionCost ge cost req
      = if cost < pr.2 then { g with best := (req, (ge, cost)) :: g.best } else g := by
  unfold Group.setExpressionCost
  rw [h]

/-- C5: whenever the candidate-best registration step of OptimizeExpression
(lines 199-207, embedded as recordBestIfSubsumes) changes any best binding of
the memo, the derived output properties subsume the requirements, the changed
binding is exactly the one for the requirements in the group of the
expression, the new binding stores the expression with its derived cost, and
any incumbent it displaced had a strictly larger cost. -/
theorem recordBest_subsumes_and_strict (m : Memo) (ge : GroupExpression)
    (outProps req : PropertySet) (gid : GroupID) (rq : PropertySet)
    (hne : alookup rq ((recordBestIfSubsumes m ge outProps req).getGroup gid).best
      ≠ alookup rq (m.getGroup gid).best) :
    PropertySet.subsumes outProps req = true
    ∧ gid = ge.groupId ∧ rq = req
    ∧ alookup rq ((recordBestIfSubsumes m ge outProps req).getGroup gid).best
        = some (ge, ge.getCost outProps)
    ∧ ∀ e c, alookup req (m.getGroup ge.groupId).best = some (e, c) →
        ge.getCost outProps < c := by
  by_cases hs : PropertySet.subsumes outProps req = true
  case neg =>
    exfalso
    apply hne
    simp [recordBestIfSubsumes, hs]
  case pos =>
    have hrw : recordBestIfSubsumes m ge outProps req
        = m.updateGroup ge.groupId
            ((m.getGroup ge.groupId).setExpressionCost ge (ge.getCost outProps) req) := by
      simp [recordBestIfSubsumes, hs]
    rw [hrw, getGroup_updateGroup] at hne ⊢
    by_cases hg : gid = ge.groupId
    case neg =>
      exfalso
      apply hne
      rw [if_neg hg]
    case pos =>
      subst hg
      rw [if_pos rfl] at hne ⊢
      cases hb : alookup req (m.getGroup ge.groupId).best with
      | none =>
        rw [setExpressionCost_of_none _ _ _ _ hb] at hne ⊢
        by_cases hr : rq = req
        case neg =>
          exfalso
          apply hne
          have h2 : ¬ req = rq := fun hh => hr hh.symm
          simp [alookup, h2]
        case pos =>
          subst hr
          refine ⟨hs, rfl, rfl, ?_, ?_⟩
          · simp [alookup]
          · intro e c hec
            exact absurd hec (by simp)
      | some pr =>
        rw [setExpressionCost_of_some _ _ _ _ _ hb] at hne ⊢
        by_cases hlt : ge.getCost outProps < pr.2
        case pos =>
          rw [if_pos hlt] at hne ⊢
          by_cases hr : rq = req
          case neg =>
            exfalso
            apply hne
            have h2 : ¬ req = rq := fun hh => hr hh.symm
            simp [alookup, h2]
          case pos =>
            subst hr
            refine ⟨hs, rfl, rfl, ?_, ?_⟩
            · simp [alookup]
            · intro e c hec
              injection hec with h2
              rw [h2] at hlt
              exact hlt
        case neg =>
          rw [if_neg hlt] at hne
          exact absurd rfl hne

/-- Witness for C5: on the concrete memo mW the registration replaces an
incumbent of cost 10 by geW with its derived cost 3. -/
theorem recordBest_subsumes_and_strict_witness :
    PropertySet.subsumes [2] [2] = true
    ∧ alookup [2] ((recordBestIfSubsumes mW geW [2] [2]).getGroup 5).best
        = some (geW, geW.getCost [2]) :=
  ⟨(recordBest_subsumes_and_strict mW geW [2] [2] 5 [2] (by decide)).1,
   (recordBest_subsumes_and_strict mW geW [2] [2] 5 [2] (by decide)).2.2.2.1⟩

/-- Inversion of a successful Except map. -/
theorem exceptMap_ok {ε α β : Type} (g : α → β) (x : Except ε α) (b : β)
    (h : x.map g = .ok b) : ∃ a, x = .ok a ∧ g a = b := by
  cases x with
  | error e => simp [Except.map] at h
  | ok a =>
    refine ⟨a, rfl, ?_⟩
    simpa [Except.map] using h

/-- Inversion of a successful Except bind. -/
theorem exceptBind_ok {ε α β : Type} (x : Except ε α) (k : α → Except ε β) (b : β)
    (h : (x >>= k) = .ok b) : ∃ a, x = .ok a ∧ k a = .ok b := by
  cases x with
  | error e => simp [Bind.bind, Except.bind] at h
  | ok a =>
    refine ⟨a, rfl, ?_⟩
    simpa [Bind.bind, Except.bind] using h

/-- Fuel monotonicity of the extraction step: a successful extraction stays
successful with more fuel. -/
theorem chooseStep_mono :
    ∀ (f fq : Nat), f ≤ fq → ∀ (m : Memo) (c : ChooseCall) (r : List OpExpr),
      chooseStep f m c = .ok r → chooseStep fq m c = .ok r := by
  intro f
  induction f with
  | zero =>
    intro fq _ m c r h
    simp [chooseStep] at h
  | succ g ih =>
    intro fq hle m c r h
    obtain ⟨gq, rfl⟩ : ∃ gq, fq = gq + 1 := ⟨fq - 1, by omega⟩
    have hg : g ≤ gq := by omega
    cases c with
    | one id req =>
      simp only [chooseStep] at h ⊢
      split at h
      · exact absurd h (by simp)
      · rename_i ge hge
        obtain ⟨ts, hts, hrest⟩ := exceptBind_ok _ _ _ h
        rw [ih gq hg m _ ts hts]
        exact hrest
    | many pairs =>
      cases pairs with
      | nil =>
        simpa [chooseStep] using h
      | cons pr rest =>
        simp only [chooseStep] at h ⊢
        obtain ⟨t, ht, h2⟩ := exceptBind_ok _ _ _ h
        obtain ⟨ts2, hts2, h3⟩ := exceptBind_ok _ _ _ h2
        rw [ih gq hg m _ t ht, ih gq hg m _ ts2 hts2]
        exact h3

/-- A successful extraction of a single group yields a singleton list. -/
theorem chooseStep_one_length (f : Nat) (m : Memo) (id : GroupID) (req : PropertySet)
    (l : List OpExpr) (h : chooseStep f m (.one id req) = .ok l) : l.length = 1 := by
  cases f with
  | zero => simp [chooseStep] at h
  | succ g =>
    simp only [chooseStep] at h
    split at h
    · exact absurd h (by simp)
    · rename_i ge hge
      obtain ⟨ts, hts, hif⟩ := exceptBind_ok _ _ _ h
      by_cases hlen : ge.childGroups.length ≤ (chooseBestChildProps ge).length
      · rw [if_pos hlen] at hif
        cases hif
        rfl
      · rw [if_neg hlen] at hif
        exact absurd hif (by simp)

/-- A successful extraction of a pair list extracts each group of the list
under the property set paired with it, in order. -/
theorem chooseStep_many_spec :
    ∀ (pairs : List (GroupID × PropertySet)) (f : Nat) (m : Memo) (ts : List OpExpr),
      chooseStep f m (.many pairs) = .ok ts →
      ts.length = pairs.length
      ∧ ∀ (i : Nat) (h1 : i < pairs.length) (h2 : i < ts.length),
          chooseStep f m (.one (pairs.get ⟨i, h1⟩).1 (pairs.get ⟨i, h1⟩).2)
            = .ok [ts.get ⟨i, h2⟩] := by
  intro pairs
  induction pairs with
  | nil =>
    intro f m ts h
    cases f with
    | zero => simp [chooseStep] at h
    | succ g =>
      simp only [chooseStep] at h
      cases h
      exact ⟨rfl, fun i h1 _ => absurd h1 (by simp)⟩
  | cons pr rest ih =>
    intro f m ts h
    cases f with
    | zero => simp [chooseStep] at h
    | succ g =>
      simp only [chooseStep] at h
      obtain ⟨t, ht, h2⟩ := exceptBind_ok _ _ _ h
      obtain ⟨ts2, hts2, h3⟩ := exceptBind_ok _ _ _ h2
      cases h3
      have hlt : t.length = 1 := chooseStep_one_length _ _ _ _ _ ht
      obtain ⟨t0, rfl⟩ : ∃ t0, t = [t0] := by
        cases t with
        | nil => simp at hlt
        | cons a l2 =>
          cases l2 with
          | nil => exact ⟨a, rfl⟩
          | cons b l3 => simp at hlt
      obtain ⟨ihlen, ihall⟩ := ih g m ts2 hts2
      constructor
      · simp [ihlen]
      · intro i h1 h2
        cases i with
        | zero =>
          exact chooseStep_mono g (g + 1) (Nat.le_succ g) m _ _ ht
        | succ j =>
          have h1j : j < rest.length := Nat.lt_of_succ_lt_succ h1
          have h2j : j < ts2.length := Nat.lt_of_succ_lt_succ h2
          exact chooseStep_mono g (g + 1) (Nat.le_succ g) m _ _ (ihall j h1j h2j)

/-- C4 counterexample: extraction does not use the input properties recorded
during optimization.  On mC4 the winning root expression geE4 records the
empty input requirement for its child, yet the extracted child is the winner
under the statically advertised property set containing 1 (operator opA4) and
not the winner under the recorded empty set (operator opB4). -/
theorem chooseBestPlan_ignores_recorded_props :
    (alookup ([] : PropertySet) geE4.costMeta).map (fun md => md.inputProps) = some [[]]
    ∧ chooseBestPlan 5 mC4 0 [] = .ok (OpExpr.node opE4 [OpExpr.node opA4 []])
    ∧ chooseBestPlan 5 mC4 1 [] = .ok (OpExpr.node opB4 [])
    ∧ opA4.kind ≠ opB4.kind :=
  ⟨rfl, rfl, rfl, by decide⟩

/-- C4 amended: ChooseBestPlan recursively extracts each child group under the
statically advertised RequiredInputProperties of the winning operator, padded
with empty property sets when the operator advertises none; the recorded
optimization metadata is not consulted. -/
theorem chooseBestPlan_uses_static_props (f : Nat) (m : Memo) (id : GroupID)
    (req : PropertySet) (ge : GroupExpression) (t : OpExpr)
    (hbest : (m.getGroup id).getBestExpression req = some ge)
    (hok : chooseBestPlan f m id req = .ok t) :
    (ge.op.requiredInputProps.isEmpty = true →
        chooseBestChildProps ge = List.replicate ge.childGroups.length [])
    ∧ (ge.op.requiredInputProps.isEmpty = false →
        chooseBestChildProps ge = ge.op.requiredInputProps)
    ∧ t = OpExpr.node ge.op t.childrenOf
    ∧ t.childrenOf.length = ge.childGroups.length
    ∧ ge.childGroups.length ≤ (chooseBestChildProps ge).length
    ∧ ∀ (i : Nat) (h1 : i < ge.childGroups.length)
        (h2 : i < (chooseBestChildProps ge).length) (h3 : i < t.childrenOf.length),
        chooseBestPlan f m (ge.childGroups.get ⟨i, h1⟩)
            ((chooseBestChildProps ge).get ⟨i, h2⟩)
          = .ok (t.childrenOf.get ⟨i, h3⟩) := by
  obtain ⟨l, hl, hhead⟩ := exceptMap_ok _ _ _ hok
  cases f with
  | zero => simp [chooseStep] at hl
  | succ g =>
    simp only [chooseStep] at hl
    split at hl
    · exact absurd hl (by simp)
    · rename_i ge2 hge2
      rw [hbest] at hge2
      injection hge2 with hgee
      subst hgee
      obtain ⟨ts, hts, hif⟩ := exceptBind_ok _ _ _ hl
      by_cases hlen : ge.childGroups.length ≤ (chooseBestChildProps ge).length
      case neg =>
        rw [if_neg hlen] at hif
        exact absurd hif (by simp)
      case pos =>
        rw [if_pos hlen] at hif
        cases hif
        subst hhead
        obtain ⟨hlen2, hall⟩ := chooseStep_many_spec _ _ _ _ hts
        refine ⟨?_, ?_, rfl, ?_, hlen, ?_⟩
        · intro h
          simp [chooseBestChildProps, h]
        · intro h
          simp [chooseBestChildProps, h]
        · show ts.length = ge.childGroups.length
          rw [hlen2, List.length_zip]
          omega
        · intro i h1 h2 h3
          have hzi : i < (ge.childGroups.zip (chooseBestChildProps ge)).length := by
            rw [List.length_zip]
            omega
          have hone := hall i hzi h3
          have hzget : (ge.childGroups.zip (chooseBestChildProps ge)).get ⟨i, hzi⟩
              = (ge.childGroups.get ⟨i, h1⟩, (chooseBestChildProps ge).get ⟨i, h2⟩) := by
            simp [List.get_eq_getElem, List.getElem_zip]
          rw [hzget] at hone
          have hone2 := chooseStep_mono g (g + 1) (Nat.le_succ g) m _ _ hone
          unfold chooseBestPlan
          rw [hone2]
          rfl

/-- Witness for the C4 amended theorem, instantiated on the concrete
extraction scenario mC4: the single child is extracted under the static
property set of opE4. -/
theorem chooseBestPlan_uses_static_props_witness :
    chooseBestPlan 5 mC4 (geE4.childGroups.get ⟨0, by decide⟩)
        ((chooseBestChildProps geE4).get ⟨0, by decide⟩)
      = .ok ((OpExpr.node opE4 [OpExpr.node opA4 []]).childrenOf.get ⟨0, by decide⟩) :=
  (chooseBestPlan_uses_static_props 5 mC4 0 [] geE4
      (OpExpr.node opE4 [OpExpr.node opA4 []]) rfl rfl).2.2.2.2.2 0 (by decide) (by decide)
    (by decide)

/-- Memo insertion preserves every binding already present in the canonical
index. -/
theorem insertExpression_index_pres (m : Memo) (ge : GroupExpression) (t : Option GroupID)
    (k : Operator × List GroupID) (g : GroupID) (h : alookup k m.index = some g) :
    alookup k (m.insertExpression ge t).2.2.index = some g := by
  unfold Memo.insertExpression
  split
  · exact h
  · rename_i hk
    have hne : ¬ (ge.op, ge.childGroups) = k := by
      intro he
      rw [← he] at h
      rw [hk] at h
      exact absurd h (by simp)
    split
    · show alookup k (((ge.op, ge.childGroups), m.nextId) :: m.index) = some g
      simp only [alookup]
      rw [if_neg hne]
      exact h
    · rename_i tg
      show alookup k (((ge.op, ge.childGroups), tg) :: m.index) = some g
      simp only [alookup]
      rw [if_neg hne]
      exact h

/-- The child-recording loop preserves index bindings whenever the recorder
passed to it does. -/
theorem memoChildrenWith_index_pres (rc : Memo → OpExpr → GroupID × Memo)
    (hrc : ∀ (m : Memo) (p : OpExpr) (k : Operator × List GroupID) (g : GroupID),
        alookup k m.index = some g → alookup k (rc m p).2.index = some g) :
    ∀ (cs : List OpExpr) (m : Memo) (k : Operator × List GroupID) (g : GroupID),
      alookup k m.index = some g →
      alookup k (memoChildrenWith rc m cs).2.index = some g := by
  intro cs
  induction cs with
  | nil =>
    intro m k g h
    simpa [memoChildrenWith] using h
  | cons c cs ih =>
    intro m k g h
    simp only [memoChildrenWith]
    exact ih _ _ _ (hrc _ _ _ _ h)

/-- Memoizing a transformed tree preserves index bindings. -/
theorem memoTransformedExpression_index_pres :
    ∀ (f : Nat) (m : Memo) (p : OpExpr) (k : Operator × List GroupID) (g : GroupID),
      alookup k m.index = some g →
      alookup k (memoTransformedExpression f m p).2.index = some g := by
  intro f
  induction f with
  | zero =>
    intro m p k g h
    simpa [memoTransformedExpression] using h
  | succ fp ih =>
    intro m p k g h
    cases p with
    | leafGroup gid => simpa [memoTransformedExpression] using h
    | node o cs =>
      simp only [memoTransformedExpression]
      exact insertExpression_index_pres _ _ _ _ _
        (memoChildrenWith_index_pres _ ih cs m k g h)

/-- Memoizing a child list preserves index bindings. -/
theorem memoTransformedChildren_index_pres (f : Nat) (cs : List OpExpr) (m : Memo)
    (k : Operator × List GroupID) (g : GroupID) (h : alookup k m.index = some g) :
    alookup k (memoTransformedChildren f m cs).2.index = some g :=
  memoChildrenWith_index_pres _ (memoTransformedExpression_index_pres f) cs m k g h

/-- Recording a transformed expression preserves index bindings. -/
theorem recordTransformedExpression_index_pres (f : Nat) (m : Memo) (p : OpExpr)
    (t : Option GroupID) (k : Operator × List GroupID) (g : GroupID)
    (h : alookup k m.index = some g) :
    alookup k (recordTransformedExpression f m p t).2.2.index = some g := by
  cases p with
  | leafGroup gid => simpa [recordTransformedExpression] using h
  | node o cs =>
    simp only [recordTransformedExpression]
    exact insertExpression_index_pres _ _ _ _ _
      (memoTransformedChildren_index_pres f cs m k g h)

/-- The plan-integration loop preserves index bindings. -/
theorem integratePlansLoop_index_pres (f : Nat) (t : GroupID) :
    ∀ (ps : List OpExpr) (m : Memo) (k : Operator × List GroupID) (g : GroupID),
      alookup k m.index = some g →
      alookup k (integratePlansLoop f t m ps).2.index = some g := by
  intro ps
  induction ps with
  | nil =>
    intro m k g h
    simpa [integratePlansLoop] using h
  | cons p ps ih =>
    intro m k g h
    simp only [integratePlansLoop]
    exact ih _ _ _ (recordTransformedExpression_index_pres f m p (some t) k g h)

/-- The binding loop of TransformExpression preserves index bindings. -/
theorem transformBindingsLoop_index_pres (f : Nat) (rl : Rule) (t : GroupID) :
    ∀ (bs : List OpExpr) (m : Memo) (k : Operator × List GroupID) (g : GroupID),
      alookup k m.index = some g →
      alookup k (transformBindingsLoop f rl t m bs).2.index = some g := by
  intro bs
  induction bs with
  | nil =>
    intro m k g h
    simpa [transformBindingsLoop] using h
  | cons b bs ih =>
    intro m k g h
    simp only [transformBindingsLoop]
    split
    · exact ih _ _ _ (integratePlansLoop_index_pres f t _ _ _ _ h)
    · exact ih _ _ _ h

/-- An insert with a target group that reports new places the expression in
the target group: the key was absent before and maps to the target after. -/
theorem insertExpression_new_target_spec (m : Memo) (ge : GroupExpression) (t : GroupID)
    (ge2 : GroupExpression) (m2 : Memo)
    (heq : m.insertExpression ge (some t) = (ge2, true, m2)) :
    ge2 = { ge with groupId := t }
    ∧ alookup (ge.op, ge.childGroups) m.index = none
    ∧ alookup (ge.op, ge.childGroups) m2.index = some t := by
  cases hk : alookup (ge.op, ge.childGroups) m.index with
  | some gid =>
    exfalso
    have hred : m.insertExpression ge (some t) = ({ ge with groupId := gid }, false, m) := by
      unfold Memo.insertExpression
      rw [hk]
    rw [hred] at heq
    injection heq with h1 h23
    injection h23 with h2 h3
    exact absurd h2.symm (by simp)
  | none =>
    have hred : m.insertExpression ge (some t)
        = ({ ge with groupId := t }, true,
           { groups := updateAssoc t { m.getGroup t with
                expressions := (m.getGroup t).expressions ++ [{ ge with groupId := t }] }
                m.groups,
             index := ((ge.op, ge.childGroups), t) :: m.index,
             nextId := m.nextId }) := by
      unfold Memo.insertExpression
      rw [hk]
      rfl
    rw [hred] at heq
    injection heq with h1 h23
    injection h23 with h2 h3
    refine ⟨h1.symm, rfl, ?_⟩
    rw [← h3]
    simp [alookup]

/-- Recording a transformed tree that reports new places the produced
group-expression in the target group. -/
theorem recordTransformedExpression_new_spec (f : Nat) (m : Memo) (p : OpExpr) (t : GroupID)
    (ge2 : GroupExpression) (m2 : Memo)
    (heq : recordTransformedExpression f m p (some t) = (ge2, true, m2)) :
    ge2.groupId = t
    ∧ alookup (ge2.op, ge2.childGroups) m.index = none
    ∧ alookup (ge2.op, ge2.childGroups) m2.index = some t := by
  cases p with
  | leafGroup gid =>
    have hred : recordTransformedExpression f m (.leafGroup gid) (some t)
        = ({ op := { kind := 0, params := [], physical := false, requiredInputProps := [],
                     baseCost := 0 },
             childGroups := [], groupId := gid, costMeta := [] }, false, m) := rfl
    rw [hred] at heq
    injection heq with h1 h23
    injection h23 with h2 h3
    exact absurd h2.symm (by simp)
  | node o cs =>
    have hred : recordTransformedExpression f m (.node o cs) (some t)
        = (memoTransformedChildren f m cs).2.insertExpression
            { op := o, childGroups := (memoTransformedChildren f m cs).1,
              groupId := 0, costMeta := [] } (some t) := rfl
    rw [hred] at heq
    obtain ⟨hge2, hnone, hsome⟩ := insertExpression_new_target_spec _ _ _ _ _ heq
    subst hge2
    refine ⟨rfl, ?_, hsome⟩
    cases hm : alookup (o, (memoTransformedChildren f m cs).1) m.index with
    | none => rfl
    | some g0 =>
      exfalso
      have hpres := memoTransformedChildren_index_pres f cs m _ _ hm
      rw [hnone] at hpres
      exact absurd hpres (by simp)

/-- The integration loop returns exactly the expressions whose insert reported
new, each placed in the target group with a key absent from the starting
index and mapped to the target in the final index. -/
theorem integratePlansLoop_spec (f : Nat) (t : GroupID) :
    ∀ (ps : List OpExpr) (m : Memo) (ge : GroupExpression),
      ge ∈ (integratePlansLoop f t m ps).1 →
      ge.groupId = t
      ∧ alookup (ge.op, ge.childGroups) m.index = none
      ∧ alookup (ge.op, ge.childGroups) (integratePlansLoop f t m ps).2.index = some t := by
  intro ps
  induction ps with
  | nil =>
    intro m ge h
    simp [integratePlansLoop] at h
  | cons p ps ih =>
    intro m ge h
    simp only [integratePlansLoop] at h ⊢
    rw [List.mem_append] at h
    cases h with
    | inr hr =>
      obtain ⟨h1, h2, h3⟩ := ih _ _ hr
      refine ⟨h1, ?_, h3⟩
      cases hm : alookup (ge.op, ge.childGroups) m.index with
      | none => rfl
      | some g0 =>
        exfalso
        have hpres := recordTransformedExpression_index_pres f m p (some t) _ _ hm
        rw [h2] at hpres
        exact absurd hpres (by simp)
    | inl hl =>
      by_cases hn : (recordTransformedExpression f m p (some t)).2.1 = true
      · rw [if_pos hn] at hl
        have hge : ge = (recordTransformedExpression f m p (some t)).1 := by
          simpa using hl
        have heq : recordTransformedExpression f m p (some t)
            = ((recordTransformedExpression f m p (some t)).1, true,
               (recordTransformedExpression f m p (some t)).2.2) := by
          rw [← hn]
        obtain ⟨h1, h2, h3⟩ := recordTransformedExpression_new_spec f m p t _ _ heq
        subst hge
        exact ⟨h1, h2, integratePlansLoop_index_pres f t ps _ _ _ h3⟩
      · rw [if_neg hn] at hl
        simp at hl

/-- The outer binding loop of TransformExpression returns exactly the new
expressions, each recorded into the target group. -/
theorem transformBindingsLoop_spec (f : Nat) (rl : Rule) (t : GroupID) :
    ∀ (bs : List OpExpr) (m : Memo) (ge : GroupExpression),
      ge ∈ (transformBindingsLoop f rl t m bs).1 →
      ge.groupId = t
      ∧ alookup (ge.op, ge.childGroups) m.index = none
      ∧ alookup (ge.op, ge.childGroups) (transformBindingsLoop f rl t m bs).2.index
          = some t := by
  intro bs
  induction bs with
  | nil =>
    intro m ge h
    simp [transformBindingsLoop] at h
  | cons b bs ih =>
    intro m ge h
    simp only [transformBindingsLoop] at h ⊢
    rw [List.mem_append] at h
    by_cases hc : rl.check b = true
    · rw [if_pos hc] at h ⊢
      cases h with
      | inl hl =>
        obtain ⟨h1, h2, h3⟩ := integratePlansLoop_spec f t _ m ge hl
        exact ⟨h1, h2, transformBindingsLoop_index_pres f rl t bs _ _ _ h3⟩
      | inr hr =>
        obtain ⟨h1, h2, h3⟩ := ih _ _ hr
        refine ⟨h1, ?_, h3⟩
        cases hm : alookup (ge.op, ge.childGroups) m.index with
        | none => rfl
        | some g0 =>
          exfalso
          have hpres := integratePlansLoop_index_pres f t (rl.transform b) m _ _ hm
          rw [h2] at hpres
          exact absurd hpres (by simp)
    · rw [if_neg hc] at h ⊢
      cases h with
      | inl hl => simp at hl
      | inr hr => exact ih _ _ hr

/-- C6: every group-expression returned by TransformExpression was recorded
into the memo with the source group as its target group (its canonical key
maps to the source group in the final index), and the returned list contains
only new expressions: the canonical key of each returned expression was
absent from the memo before the call, so expressions already present are
never returned. -/
theorem transformExpression_new_into_source_group (f : Nat) (m : Memo)
    (src : GroupExpression) (rl : Rule) (ge : GroupExpression)
    (hmem : ge ∈ (transformExpression f m src rl).1) :
    ge.groupId = src.groupId
    ∧ alookup (ge.op, ge.childGroups) m.index = none
    ∧ alookup (ge.op, ge.childGroups) (transformExpression f m src rl).2.index
        = some src.groupId :=
  transformBindingsLoop_spec f rl src.groupId _ m ge hmem

/-- Witness for C6 on the concrete rule application: the Get-to-Scan rule on
m0 returns exactly the new physical expression, placed in group 0 of its
source expression. -/
theorem transformExpression_new_into_source_group_witness :
    gePhys.groupId = geLog.groupId
    ∧ alookup (gePhys.op, gePhys.childGroups) m0.index = none
    ∧ alookup (gePhys.op, gePhys.childGroups)
        (transformExpression 3 m0 geLog ruleGetToScan).2.index = some geLog.groupId :=
  transformExpression_new_into_source_group 3 m0 geLog ruleGetToScan gePhys (by decide)

end PelotonOpt
